import Mathlib

/-!
# smhi_demo.cpp: a shallow embedding and its verified properties

The program fetches a weather forecast with libcurl, parses it with
nlohmann::json and prints the first eight forecast entries.

The embedding follows `src/smhi_demo.cpp` function by function
(`WriteCallback`, `smhi`, `parse_json`, `main`).  The operations of
nlohmann::json that the program calls (`operator[]`, `size`, iteration,
conversion to `double`, comparison with a string literal, serialisation) are
modelled by the definitions of the `Json` namespace.  Three library
operations stay parameters, collected in `Lib`: the JSON text parser and the
two number-to-text conversions.
-/

set_option autoImplicit false

namespace SmhiDemo

/-! ## Values -/

/-- An IEEE-754 binary64 value, kept as its 64-bit pattern.  The program
never does arithmetic on a `double`: it stores one and prints it. -/
structure Double where
  bits : Nat
deriving DecidableEq, Repr

/-- The literal `0.0` -/
def Double.zero : Double := ⟨0⟩

/-- Number of binary digits of `n`, for `n < 2 ^ fuel` -/
def bitLength : Nat → Nat → Nat
  | 0, _ => 0
  | fuel + 1, n => if n = 0 then 0 else bitLength fuel (n / 2) + 1

/-- The conversion `static_cast<double>(n)` of a `std::uint64_t`
(`n < 2 ^ 64`): round to nearest, ties to even, on 53 significant bits. -/
def Double.ofNat (n : Nat) : Double :=
  if n = 0 then ⟨0⟩
  else
    let len := bitLength 64 n
    if len ≤ 53 then
      ⟨(len + 1022) * 2 ^ 52 + (n * 2 ^ (53 - len) - 2 ^ 52)⟩
    else
      let shift := len - 53
      let q := n / 2 ^ shift
      let r := n % 2 ^ shift
      let half := 2 ^ (shift - 1)
      let q1 := if half < r ∨ (r = half ∧ q % 2 = 1) then q + 1 else q
      ⟨(len + 1022) * 2 ^ 52 + (q1 - 2 ^ 52)⟩

/-- The conversion `static_cast<double>(i)` of a `std::int64_t` -/
def Double.ofInt (i : Int) : Double :=
  if 0 ≤ i then Double.ofNat i.toNat
  else ⟨2 ^ 63 + (Double.ofNat (-i).toNat).bits⟩

/-- A value of `nlohmann::json`.  An object is a `std::map`: its members are
listed in key order. -/
inductive Json where
  | null
  | boolean (b : Bool)
  | number_integer (i : Int)
  | number_unsigned (n : Nat)
  | number_float (x : Double)
  | string (s : String)
  | array (elems : List Json)
  | object (members : List (String × Json))

/-- What ends the program abnormally: an exception nobody catches, a failed
`JSON_ASSERT`, or behaviour the C++ standard leaves undefined. -/
inductive Failure where
  | type_error (id : Nat)
  | assertion
  | undefined
deriving DecidableEq, Repr

namespace Json

/-- Lookup in the `std::map` of an object: `find(key)` -/
def find (key : String) : List (String × Json) → Option Json
  | [] => none
  | (k, v) :: ms => if k = key then some v else find key ms

/-- Insertion of a new member at its place in key order, `emplace(key, v)`
for a key the map does not hold. -/
def insert (key : String) (v : Json) : List (String × Json) → List (String × Json)
  | [] => [(key, v)]
  | (k, w) :: ms => if key < k then (key, v) :: (k, w) :: ms else (k, w) :: insert key v ms

/-- The member function `size()`: 0 for null, the number of elements of an
array or object, 1 for every other value. -/
def size : Json → Nat
  | null => 0
  | array es => es.length
  | object ms => ms.length
  | _ => 1

/-- The non-const `operator[](key)`: returns the member referred to and the
value after the call.  A null value becomes an object, a missing member is
inserted as null, and any other type throws `type_error` 305. -/
def atKey (j : Json) (key : String) : Except Failure (Json × Json) :=
  match j with
  | null => .ok (null, object [(key, null)])
  | object ms =>
    match find key ms with
    | some v => .ok (v, object ms)
    | none => .ok (null, object (insert key null ms))
  | _ => .error (.type_error 305)

/-- The non-const `operator[](size_type idx)`: returns the element referred
to and the value after the call.  A null value becomes an array, an array
that is too short is filled with nulls up to `idx`, and any other type throws
`type_error` 305. -/
def atIndex (j : Json) (idx : Nat) : Except Failure (Json × Json) :=
  match j with
  | null => .ok (null, array (List.replicate (idx + 1) null))
  | array es =>
    if idx < es.length then .ok (es.getD idx null, array es)
    else .ok (null, array (es ++ List.replicate (idx + 1 - es.length) null))
  | _ => .error (.type_error 305)

/-- Writing through the reference that `operator[](idx)` returned -/
def setIndex (j : Json) (idx : Nat) (e : Json) : Json :=
  match j with
  | array es => array (es.set idx e)
  | other => other

/-- The const `operator[](key)`: only an object can be indexed, and the key
has to be there (`JSON_ASSERT(it != end())`). -/
def atKeyConst (j : Json) (key : String) : Except Failure Json :=
  match j with
  | object ms =>
    match find key ms with
    | some v => .ok v
    | none => .error .assertion
  | _ => .error (.type_error 305)

/-- The const `operator[](size_type idx)`: only an array can be indexed, by
`std::vector::operator[]`, which is undefined out of range. -/
def atIndexConst (j : Json) (idx : Nat) : Except Failure Json :=
  match j with
  | array es =>
    match es.get? idx with
    | some v => .ok v
    | none => .error .undefined
  | _ => .error (.type_error 305)

/-- The implicit conversion to `double` (`get<double>()`): the three number
types convert, every other type throws `type_error` 302. -/
def toDouble : Json → Except Failure Double
  | number_float x => .ok x
  | number_integer i => .ok (Double.ofInt i)
  | number_unsigned n => .ok (Double.ofNat n)
  | _ => .error (.type_error 302)

/-- The comparison `j == "literal"`: true for a string of equal content,
false for every other value. -/
def eqString (j : Json) (s : String) : Bool :=
  match j with
  | string x => x == s
  | _ => false

/-- The values a range-based `for` visits: the elements of an array, the
member values of an object, nothing for null, the value itself otherwise. -/
def items : Json → List Json
  | null => []
  | array es => es
  | object ms => ms.map Prod.snd
  | other => [other]

/-- One escaped character of `serializer::dump_escaped` (with
`ensure_ascii` off): the quote, the backslash and the control characters are
escaped, every other code point is copied. -/
def escapeChar (c : Char) : String :=
  if c.toNat = 8 then "\\b"
  else if c.toNat = 9 then "\\t"
  else if c.toNat = 10 then "\\n"
  else if c.toNat = 12 then "\\f"
  else if c.toNat = 13 then "\\r"
  else if c.toNat = 34 then "\\\""
  else if c.toNat = 92 then "\\\\"
  else if c.toNat ≤ 31 then
    "\\u00" ++ String.singleton (Nat.digitChar (c.toNat / 16))
      ++ String.singleton (Nat.digitChar (c.toNat % 16))
  else String.singleton c

/-- The body of a serialised string, `serializer::dump_escaped` -/
def dump_escaped (s : String) : String :=
  String.join (s.toList.map escapeChar)

mutual

/-- The compact serialisation `dump()`, which `std::ostream << json` writes.
`dumpFloat` is the text of a `number_float`. -/
def dump (dumpFloat : Double → String) : Json → String
  | null => "null"
  | boolean b => if b then "true" else "false"
  | number_integer i => toString i
  | number_unsigned n => toString n
  | number_float x => dumpFloat x
  | string s => "\"" ++ dump_escaped s ++ "\""
  | array es => "[" ++ dumpElems dumpFloat es ++ "]"
  | object ms => "\x7b" ++ dumpMembers dumpFloat ms ++ "\x7d"

/-- The elements of an array, separated by commas -/
def dumpElems (dumpFloat : Double → String) : List Json → String
  | [] => ""
  | [e] => dump dumpFloat e
  | e :: es => dump dumpFloat e ++ "," ++ dumpElems dumpFloat es

/-- The members of an object as `"key":value`, separated by commas -/
def dumpMembers (dumpFloat : Double → String) : List (String × Json) → String
  | [] => ""
  | [(k, v)] => "\"" ++ dump_escaped k ++ "\":" ++ dump dumpFloat v
  | (k, v) :: ms =>
    "\"" ++ dump_escaped k ++ "\":" ++ dump dumpFloat v ++ "," ++ dumpMembers dumpFloat ms

end

end Json

/-! ## Library operations left abstract -/

/-- The library operations that the program calls and that stay parameters
of the embedding. -/
structure Lib where
  /-- The call `json::parse(buffer)`: the document, or `none` when it throws. -/
  parse : List UInt8 → Option Json
  /-- The text `std::ostream << double` writes. -/
  showDouble : Double → String
  /-- The text of a `number_float` inside `dump()`. -/
  dumpFloat : Double → String

/-- One invocation of the write callback by libcurl: the memory `contents`
points to and the two counts passed with it. -/
structure Chunk where
  contents : List UInt8
  size : Nat
  nmemb : Nat

/-- What the network layer does once `curl_easy_perform` runs: the chunks it
hands to the write callback, in order, and the code it reports when every
chunk was accepted (0 is `CURLE_OK`). -/
structure Transfer where
  chunks : List Chunk
  res : Nat

/-! ## The program -/

/-- The function `WriteCallback` (lines 10-15).  `size * nmemb` is a `size_t` product;
`append` copies `totalSize` bytes starting at `contents`, which is undefined
when fewer bytes are there.  Returns the value returned and the string
`output` points to after the call. -/
def WriteCallback (contents : List UInt8) (size nmemb : Nat) (output : List UInt8) :
    Except Failure (Nat × List UInt8) :=
  let totalSize := (size * nmemb) % 2 ^ 64
  if totalSize ≤ contents.length then .ok (totalSize, output ++ contents.take totalSize)
  else .error .undefined

/-- The transfer loop of `curl_easy_perform` with `CURLOPT_WRITEFUNCTION` and
`CURLOPT_WRITEDATA` set (lines 30-33): the callback is called once per chunk;
a return value other than the number of bytes passed aborts the transfer with
`CURLE_WRITE_ERROR` (23).  Returns the code, the values the callback returned
and the buffer. -/
def curl_easy_perform (res : Nat) : List Chunk → List UInt8 →
    Except Failure (Nat × List Nat × List UInt8)
  | [], buffer => .ok (res, [], buffer)
  | c :: cs, buffer =>
    match WriteCallback c.contents c.size c.nmemb buffer with
    | .error e => .error e
    | .ok (n, buffer1) =>
      if n = c.size * c.nmemb then
        match curl_easy_perform res cs buffer1 with
        | .error e => .error e
        | .ok (code, ns, buffer2) => .ok (code, n :: ns, buffer2)
      else .ok (23, [n], buffer1)

/-- The function `smhi` (lines 17-42).  `curl` is `none` when `curl_easy_init` fails.  Both
error paths end in `return 0;`, which builds a `std::string` from a null
pointer.  Standard error is not part of the embedding. -/
def smhi (curl : Option Transfer) : Except Failure (List UInt8) :=
  match curl with
  | none => .error .undefined
  | some tr =>
    match curl_easy_perform tr.res tr.chunks [] with
    | .error e => .error e
    | .ok (res, _, buffer) => if res ≠ 0 then .error .undefined else .ok buffer

/-- The function `parse_json` (lines 45-59): the parsed document, or, when `json::parse`
throws, the JSON string that `return "Json parse error!";` builds. -/
def parse_json (lib : Lib) (buffer : List UInt8) : Json :=
  match lib.parse buffer with
  | some data => data
  | none => Json.string "Json parse error!"

/-- The locals `t`, `temp` and `precip` of the loop body of `main` when the
output statement of line 85 is reached. -/
structure DisplayRecord where
  t : Json
  temp : Double
  precip : Double

/-- The right-hand side `p["values"][0]` of the two assignments (lines 77
and 81), converted to `double`. -/
def firstValue (p : Json) : Except Failure Double := do
  let values ← p.atKeyConst "values"
  let v ← values.atIndexConst 0
  v.toDouble

/-- The body of the inner loop (lines 75-82) for one parameter `p`, a const
reference; the state is `(temp, precip)`. -/
def paramStep (p : Json) (st : Double × Double) : Except Failure (Double × Double) := do
  let name1 ← p.atKeyConst "name"
  let temp ← if name1.eqString "t" then firstValue p else pure st.1
  let name2 ← p.atKeyConst "name"
  let precip ← if name2.eqString "pmean" then firstValue p else pure st.2
  pure (temp, precip)

/-- The inner loop (lines 73-83) over the values the range-based `for`
visits. -/
def paramLoop : List Json → Double × Double → Except Failure (Double × Double)
  | [], st => pure st
  | p :: ps, st => do
    let st1 ← paramStep p st
    paramLoop ps st1

/-- The expression `timeSeries[i][key]` (lines 70 and 73): the element
reference, then the non-const member access, which writes through it.
Returns the member and `timeSeries` after the access. -/
def entryMember (timeSeries : Json) (i : Nat) (key : String) : Except Failure (Json × Json) := do
  let (entry, timeSeries1) ← timeSeries.atIndex i
  let (member, entry1) ← entry.atKey key
  pure (member, timeSeries1.setIndex i entry1)

/-- Lines 70-83 of the loop body: the locals at the output statement and
`timeSeries` after the accesses. -/
def loopBody (timeSeries : Json) (i : Nat) : Except Failure (DisplayRecord × Json) := do
  let (t, timeSeries1) ← entryMember timeSeries i "validTime"
  let (parameters, timeSeries2) ← entryMember timeSeries1 i "parameters"
  let (temp, precip) ← paramLoop parameters.items (Double.zero, Double.zero)
  pure (⟨t, temp, precip⟩, timeSeries2)

/-- The text of the output statement (line 85) -/
def printRecord (lib : Lib) (r : DisplayRecord) : String :=
  Json.dump lib.dumpFloat r.t ++ " | " ++ lib.showDouble r.temp ++ "°C, "
    ++ lib.showDouble r.precip ++ " mm precipitation\n"

/-- How a run ends: what was written to standard output, and the value
`main` returned or what ended the program instead. -/
structure Outcome where
  stdout : String
  exit : Except Failure Nat

/-- The outer loop (lines 68-87) from index `i` on, with `out` already
written.  `fuel` bounds the number of guard evaluations; `none` means it ran
out. -/
def forLoop (lib : Lib) : Nat → Nat → Json → String → Option Outcome
  | 0, _, _, _ => none
  | fuel + 1, i, timeSeries, out =>
    if i < 8 ∧ i < timeSeries.size then
      match loopBody timeSeries i with
      | .error e => some ⟨out, .error e⟩
      | .ok (r, timeSeries1) => forLoop lib fuel (i + 1) timeSeries1 (out ++ printRecord lib r)
    else some ⟨out, .ok 0⟩

/-- The header line (line 67) -/
def header : String := "Karlskrona väder idag:\n"

/-- The function `main` from line 65 on, for the document `parse_json` returned.  The
guard of the loop is evaluated at most nine times. -/
def mainFrom (lib : Lib) (weather_data_json : Json) : Option Outcome :=
  match weather_data_json.atKey "timeSeries" with
  | .error e => some ⟨"", .error e⟩
  | .ok (timeSeries, _) => forLoop lib 9 0 timeSeries header

/-- The function `main` (lines 61-88): the body fetched by `smhi` goes
through `parse_json`; when `smhi` fails nothing is written. -/
def main (lib : Lib) (curl : Option Transfer) : Option Outcome :=
  match smhi curl with
  | .error e => some ⟨"", .error e⟩
  | .ok buffer => mainFrom lib (parse_json lib buffer)

/-- The record of one entry on its own: the locals of the loop body for a
`timeSeries` that holds just this entry. -/
def recordOf (entry : Json) : Except Failure DisplayRecord :=
  (loopBody (Json.array [entry]) 0).map Prod.fst

/-! ## Vocabulary of the statements -/

/-- The test `named s p`: the parameter `p` is an object whose `name` member is the
string `s`, so that `p["name"] == s` holds. -/
def named (s : String) (p : Json) : Bool :=
  match p with
  | .object ms =>
    match Json.find "name" ms with
    | some n => n.eqString s
    | none => false
  | _ => false

/-- A parameter has a name: it is an object with a `name` member. -/
def hasName (p : Json) : Bool :=
  match p with
  | .object ms => (Json.find "name" ms).isSome
  | _ => false

/-- A parameter the inner loop can read: it has a name, and when the name is
`"t"` or `"pmean"` its `values[0]` is there and is a number. -/
def readable (p : Json) : Bool :=
  hasName p && (!(named "t" p || named "pmean" p) || (firstValue p).toBool)

/-- The relation `FieldOf s ps d x`: `x` is the field the inner loop computes for the name
`s` from the parameters `ps` and the initial value `d`, namely `values[0]` of
the last parameter named `s`, or `d` when there is none. -/
def FieldOf (s : String) (ps : List Json) (d x : Double) : Prop :=
  match (ps.filter (named s)).getLast? with
  | none => x = d
  | some pl => firstValue pl = .ok x

/-- A JSON number -/
def isNumber : Json → Bool
  | .number_integer _ => true
  | .number_unsigned _ => true
  | .number_float _ => true
  | _ => false

/-- A parameter of the response schema: an object with a string `name` and
a `values` array of numbers that holds the first value. -/
def wellFormedParameter (p : Json) : Bool :=
  match p with
  | .object ms =>
    match Json.find "name" ms, Json.find "values" ms with
    | some (.string _), some (.array (v :: vs)) => isNumber v && vs.all isNumber
    | _, _ => false
  | _ => false

/-- An entry of the response schema: an object with a string `validTime`
and a `parameters` array of well-formed parameters. -/
def wellFormedEntry (e : Json) : Bool :=
  match e with
  | .object ms =>
    match Json.find "validTime" ms, Json.find "parameters" ms with
    | some (.string _), some (.array ps) => ps.all wellFormedParameter
    | _, _ => false
  | _ => false

/-- The loop body seen from the entry it works on: the locals at the output
statement and the entry after the two member accesses. -/
def entryBody (entry : Json) : Except Failure (DisplayRecord × Json) := do
  let (t, entry1) ← entry.atKey "validTime"
  let (parameters, entry2) ← entry1.atKey "parameters"
  let (temp, precip) ← paramLoop parameters.items (Double.zero, Double.zero)
  pure (⟨t, temp, precip⟩, entry2)

/-- The outer loop as a recursion over the entries still to visit. -/
def runEntries (lib : Lib) : List Json → String → Outcome
  | [], out => ⟨out, .ok 0⟩
  | e :: es, out =>
    match recordOf e with
    | .error x => ⟨out, .error x⟩
    | .ok r => runEntries lib es (out ++ printRecord lib r)

/-- Standard output after the header and one line per record, in order -/
def written (lib : Lib) (recs : List DisplayRecord) : String :=
  recs.foldl (fun out r => out ++ printRecord lib r) header

/-! ## Sample data -/

/-- The bytes of an ASCII text -/
def bytes (s : String) : List UInt8 :=
  s.toList.map (fun c => UInt8.ofNat c.toNat)

/-- The double 5.5, `0x4016000000000000` -/
def d5_5 : Double := ⟨4617878467915022336⟩

/-- The double nearest to 0.2, `0x3FC999999999999A` -/
def d0_2 : Double := ⟨4596373779694328218⟩

/-- The double 1.0, `0x3FF0000000000000` -/
def d1_0 : Double := ⟨4607182418800017408⟩

/-- The double 2.0, `0x4000000000000000` -/
def d2_0 : Double := ⟨4611686018427387904⟩

/-- A parameter `{"name": n, "values": [x]}` -/
def parameter (n : String) (x : Double) : Json :=
  .object [("name", .string n), ("values", .array [.number_float x])]

/-- A small instance of the library parameters for evaluating the embedding:
its parser knows the three JSON literals and rejects every other text, and
its number texts are those of the C++ libraries for the doubles above. -/
def sampleLib : Lib where
  parse := fun buffer =>
    if buffer = bytes "null" then some .null
    else if buffer = bytes "true" then some (.boolean true)
    else if buffer = bytes "false" then some (.boolean false)
    else none
  showDouble := fun x =>
    if x = Double.zero then "0" else if x = d5_5 then "5.5" else if x = d0_2 then "0.2"
    else if x = d1_0 then "1" else if x = d2_0 then "2" else "?"
  dumpFloat := fun x =>
    if x = Double.zero then "0.0" else if x = d5_5 then "5.5" else if x = d0_2 then "0.2"
    else if x = d1_0 then "1.0" else if x = d2_0 then "2.0" else "?"

/-- The parameters of the first sample entry: `t` = 5.5 and `pmean` = 0.2
around a parameter of another name -/
def params1 : List Json :=
  [parameter "t" d5_5, parameter "ws" d1_0, parameter "pmean" d0_2]

/-- The parameters of the second sample entry: `pmean` before `t` -/
def params2 : List Json :=
  [parameter "pmean" Double.zero, parameter "t" d2_0]

/-- The parameters of the third sample entry: `t` twice and no `pmean` -/
def params3 : List Json :=
  [parameter "t" d1_0, parameter "t" d2_0]

/-- The members of an entry `{"parameters": ps, "validTime": time}` -/
def members (time : String) (ps : List Json) : List (String × Json) :=
  [("parameters", .array ps), ("validTime", .string time)]

/-- A response with three entries -/
def fixtureEntries : List Json :=
  [ .object (members "2024-05-01T10:00:00Z" params1),
    .object (members "2024-05-01T11:00:00Z" params2),
    .object (members "2024-05-01T12:00:00Z" params3) ]

/-- The document of the three-entry response -/
def fixture : Json := .object [("timeSeries", .array fixtureEntries)]

/-- Twelve entries: the fixture four times over -/
def longEntries : List Json :=
  fixtureEntries ++ fixtureEntries ++ fixtureEntries ++ fixtureEntries

/-- The line feed character -/
def newline : Char := Char.ofNat 10

/-- The record line as the specification words it: the `validTime` text
verbatim, then the two numbers. -/
def specLine (lib : Lib) (validTime : String) (temp precip : Double) : String :=
  validTime ++ " | " ++ lib.showDouble temp ++ "°C, " ++ lib.showDouble precip
    ++ " mm precipitation\n"

/-- The record line with the timestamp as JSON text: the `validTime` string
between double quotes, escaped, then the two numbers. -/
def jsonLine (lib : Lib) (validTime : String) (temp precip : Double) : String :=
  "\"" ++ Json.dump_escaped validTime ++ "\"" ++ " | " ++ lib.showDouble temp ++ "°C, "
    ++ lib.showDouble precip ++ " mm precipitation\n"

/-- The line that the output statement writes for a well-formed entry -/
def LineOf (lib : Lib) (e : Json) (line : String) : Prop :=
  ∃ ms s temp precip, e = Json.object ms ∧
    Json.find "validTime" ms = some (Json.string s) ∧
    recordOf e = .ok ⟨Json.string s, temp, precip⟩ ∧
    line = jsonLine lib s temp precip

/-- A chunk as libcurl passes it: `contents` points to exactly `size * nmemb`
bytes, a count that fits `size_t`. -/
def wellFormedChunk (c : Chunk) : Bool :=
  decide (c.contents.length = c.size * c.nmemb) && decide (c.size * c.nmemb < 2 ^ 64)

/-- A response whose only entry has a `t` parameter with the text "warm" in
the place of the number -/
def textValueDocument : Json :=
  .object [("timeSeries", .array [.object [("parameters", .array
    [.object [("name", .string "t"), ("values", .array [.string "warm"])]]),
    ("validTime", .string "2024-05-01T10:00:00Z")]])]

/-! ## Lemmas on the loops -/

theorem paramStep_readable (p : Json) (st : Double × Double) (h : readable p = true) :
    ∃ temp precip, paramStep p st = .ok (temp, precip) ∧
      (named "t" p = true → firstValue p = .ok temp) ∧ (named "t" p = false → temp = st.1) ∧
      (named "pmean" p = true → firstValue p = .ok precip) ∧
      (named "pmean" p = false → precip = st.2) := by
  unfold readable hasName at h
  cases p <;> simp only [Bool.false_and, Bool.false_eq_true] at h
  rename_i ms
  cases hn : Json.find "name" ms with
  | none => simp [hn] at h
  | some n =>
    simp only [named, hn, Option.isSome_some, Bool.true_and] at h
    simp only [paramStep, Json.atKeyConst, hn, named, bind, Except.bind, pure, Except.pure]
    cases hv : firstValue (Json.object ms) with
    | error e =>
      cases ht : n.eqString "t" <;> cases hp : n.eqString "pmean" <;>
        simp [ht, hp, hv, Except.toBool] at h ⊢
    | ok x =>
      cases ht : n.eqString "t" <;> cases hp : n.eqString "pmean" <;> simp [ht, hp]

theorem fieldOf_cons (s : String) (p : Json) (ps : List Json) (d d1 x : Double)
    (h1 : named s p = true → firstValue p = .ok d1) (h2 : named s p = false → d1 = d)
    (h : FieldOf s ps d1 x) : FieldOf s (p :: ps) d x := by
  unfold FieldOf at h ⊢
  cases hn : named s p
  · rw [List.filter_cons_of_neg (by simp [hn])]
    cases hl : (ps.filter (named s)).getLast? with
    | none => rw [hl] at h; simpa [h2 hn] using h
    | some pl => rw [hl] at h; simpa using h
  · rw [List.filter_cons_of_pos hn, List.getLast?_cons]
    cases hl : (ps.filter (named s)).getLast? with
    | none => rw [hl] at h; simpa [h] using h1 hn
    | some pl => rw [hl] at h; simpa using h

theorem paramLoop_readable (ps : List Json) (st : Double × Double)
    (h : ∀ p ∈ ps, readable p = true) :
    ∃ temp precip, paramLoop ps st = .ok (temp, precip) ∧
      FieldOf "t" ps st.1 temp ∧ FieldOf "pmean" ps st.2 precip := by
  induction ps generalizing st with
  | nil => exact ⟨st.1, st.2, rfl, rfl, rfl⟩
  | cons p ps ih =>
    obtain ⟨t1, p1, hs, ht1, ht2, hp1, hp2⟩ :=
      paramStep_readable p st (h p (List.mem_cons_self _ _))
    obtain ⟨temp, precip, hl, hft, hfp⟩ :=
      ih (t1, p1) (fun q hq => h q (List.mem_cons_of_mem _ hq))
    refine ⟨temp, precip, ?_, fieldOf_cons "t" p ps st.1 t1 temp ht1 ht2 hft,
      fieldOf_cons "pmean" p ps st.2 p1 precip hp1 hp2 hfp⟩
    simp [paramLoop, hs, hl, bind, Except.bind]

theorem entryMember_array (cur : List Json) (i : Nat) (key : String) (hi : i < cur.length) :
    entryMember (Json.array cur) i key =
      ((cur.getD i Json.null).atKey key).map
        (fun me => (me.1, Json.array (cur.set i me.2))) := by
  simp only [entryMember, Json.atIndex, hi, if_true, bind, Except.bind, Json.setIndex]
  cases (cur.getD i Json.null).atKey key with
  | error e => rfl
  | ok me => rfl

theorem loopBody_array (cur : List Json) (i : Nat) (hi : i < cur.length) :
    loopBody (Json.array cur) i =
      (entryBody (cur.getD i Json.null)).map
        (fun re => (re.1, Json.array (cur.set i re.2))) := by
  unfold loopBody entryBody
  rw [entryMember_array cur i "validTime" hi]
  cases h1 : (cur.getD i Json.null).atKey "validTime" with
  | error e => rfl
  | ok me1 =>
    obtain ⟨t, entry1⟩ := me1
    have hi1 : i < (cur.set i entry1).length := by simpa using hi
    simp only [Except.map, bind, Except.bind]
    rw [entryMember_array (cur.set i entry1) i "parameters" hi1]
    have hget : (cur.set i entry1).getD i Json.null = entry1 := by
      simp [List.getD_eq_getElem?_getD, hi]
    rw [hget]
    cases h2 : entry1.atKey "parameters" with
    | error e => rfl
    | ok me2 =>
      obtain ⟨ps, entry2⟩ := me2
      simp only [Except.map, List.set_set]
      cases paramLoop ps.items (Double.zero, Double.zero) with
      | error e => rfl
      | ok tp => rfl

theorem recordOf_eq (e : Json) : recordOf e = (entryBody e).map Prod.fst := by
  unfold recordOf
  rw [loopBody_array [e] 0 (by simp)]
  simp only [List.getD_cons_zero]
  cases entryBody e with
  | error x => rfl
  | ok re => rfl

theorem forLoop_array (lib : Lib) (fuel i : Nat) (cur : List Json) (out : String)
    (hf : 9 ≤ fuel + i) (hpos : 0 < fuel) :
    forLoop lib fuel i (Json.array cur) out =
      some (runEntries lib ((cur.drop i).take (8 - i)) out) := by
  induction fuel generalizing i cur out with
  | zero => omega
  | succ fuel ih =>
    unfold forLoop
    by_cases hg : i < 8 ∧ i < (Json.array cur).size
    · have hi : i < cur.length := hg.2
      rw [if_pos hg, loopBody_array cur i hi]
      have h8 : 8 - i = (8 - (i + 1)) + 1 := by omega
      rw [List.drop_eq_getElem_cons hi, h8, List.take_succ_cons]
      have hget : cur.getD i Json.null = cur[i] := by
        simp [List.getD_eq_getElem?_getD, hi]
      rw [hget]
      simp only [runEntries, recordOf_eq]
      cases hb : entryBody cur[i] with
      | error x => rfl
      | ok re =>
        simp only [Except.map]
        rw [ih (i + 1) (cur.set i re.2) _ (by omega) (by omega)]
        rw [List.drop_set_of_lt _ _ (by omega)]
    · rw [if_neg hg]
      have : (cur.drop i).take (8 - i) = [] := by
        simp only [Json.size] at hg
        by_cases h8 : i < 8
        · have : cur.length ≤ i := by omega
          simp [List.drop_eq_nil_of_le this]
        · have : 8 - i = 0 := by omega
          simp [this]
      rw [this]
      rfl

theorem forLoop_not_array (lib : Lib) (fuel i : Nat) (timeSeries : Json) (out : String)
    (h : ∀ es, timeSeries ≠ Json.array es) :
    forLoop lib (fuel + 1) i timeSeries out = some ⟨out,
      if i < 8 ∧ i < timeSeries.size then .error (.type_error 305) else .ok 0⟩ := by
  cases timeSeries with
  | array es => exact absurd rfl (h es)
  | null => simp [forLoop, Json.size]
  | object ms =>
    by_cases hg : i < 8 ∧ i < ms.length
    · simp [forLoop, Json.size, hg, loopBody, entryMember, Json.atIndex, bind, Except.bind]
    · have hg1 : ¬ (i < 8 ∧ i < ms.length) := hg
      simp only [forLoop, Json.size, if_neg hg1]
  | _ =>
    by_cases hg : i < 8 ∧ i < 1
    · simp [forLoop, Json.size, hg, loopBody, entryMember, Json.atIndex, bind, Except.bind]
    · have hg1 : ¬ (i < 8 ∧ i < 1) := hg
      simp only [forLoop, Json.size, if_neg hg1]

/-- The nine guard evaluations that `mainFrom` allows are enough: every run
of `main` from line 65 on has an outcome. -/
theorem mainFrom_total (lib : Lib) (weather_data_json : Json) :
    ∃ o, mainFrom lib weather_data_json = some o := by
  unfold mainFrom
  cases weather_data_json.atKey "timeSeries" with
  | error e => exact ⟨_, rfl⟩
  | ok mt =>
    obtain ⟨timeSeries, _⟩ := mt
    by_cases h : ∃ es, timeSeries = Json.array es
    · obtain ⟨es, rfl⟩ := h
      exact ⟨_, forLoop_array lib 9 0 es header (by omega) (by omega)⟩
    · exact ⟨_, forLoop_not_array lib 8 0 timeSeries header (fun es he => h ⟨es, he⟩)⟩

theorem mainFrom_array (lib : Lib) (ms : List (String × Json)) (es : List Json)
    (h : Json.find "timeSeries" ms = some (Json.array es)) :
    mainFrom lib (Json.object ms) = some (runEntries lib (es.take 8) header) := by
  simp only [mainFrom, Json.atKey, h]
  rw [forLoop_array lib 9 0 es header (by omega) (by omega)]
  simp

theorem runEntries_ok (lib : Lib) (es : List Json) (recs : List DisplayRecord) (out : String)
    (h : es.map recordOf = recs.map Except.ok) :
    runEntries lib es out = ⟨recs.foldl (fun o r => o ++ printRecord lib r) out, .ok 0⟩ := by
  induction es generalizing recs out with
  | nil =>
    cases recs with
    | nil => rfl
    | cons r rs => simp at h
  | cons e es ih =>
    cases recs with
    | nil => simp at h
    | cons r rs =>
      simp only [List.map_cons, List.cons.injEq] at h
      simp only [runEntries, h.1, List.foldl_cons]
      exact ih rs _ h.2

theorem records_exist (es : List Json) (h : ∀ e ∈ es, ∃ r, recordOf e = .ok r) :
    ∃ recs : List DisplayRecord, es.map recordOf = recs.map Except.ok := by
  induction es with
  | nil => exact ⟨[], rfl⟩
  | cons e es ih =>
    obtain ⟨r, hr⟩ := h e (List.mem_cons_self _ _)
    obtain ⟨rs, hrs⟩ := ih (fun x hx => h x (List.mem_cons_of_mem _ hx))
    exact ⟨r :: rs, by simp [hr, hrs]⟩

theorem find_insert_ne (key k : String) (v : Json) (ms : List (String × Json)) (h : key ≠ k) :
    Json.find k (Json.insert key v ms) = Json.find k ms := by
  induction ms with
  | nil => simp [Json.insert, Json.find, h]
  | cons m ms ih =>
    obtain ⟨k1, w⟩ := m
    unfold Json.insert
    split
    · simp [Json.find, h]
    · simp [Json.find, ih]

theorem toDouble_of_isNumber (v : Json) (h : isNumber v = true) : ∃ x, v.toDouble = .ok x := by
  cases v <;> simp [isNumber] at h <;> exact ⟨_, rfl⟩

theorem readable_of_wellFormed (p : Json) (h : wellFormedParameter p = true) :
    readable p = true := by
  unfold wellFormedParameter at h
  split at h
  · rename_i ms
    split at h
    · rename_i n v vs hn hv
      simp only [Bool.and_eq_true] at h
      obtain ⟨x, hx⟩ := toDouble_of_isNumber v h.1
      simp [readable, hasName, hn, firstValue, Json.atKeyConst, hv, Json.atIndexConst, hx,
        bind, Except.bind, Except.toBool]
    · exact absurd h (by simp)
  · exact absurd h (by simp)

/-- The loop body on an object entry whose parameters can all be read -/
theorem entryBody_object (ms : List (String × Json))
    (hr : ∀ p ∈ ((Json.find "parameters" ms).getD Json.null).items, readable p = true) :
    ∃ temp precip entry2,
      entryBody (Json.object ms) =
        .ok (⟨(Json.find "validTime" ms).getD Json.null, temp, precip⟩, entry2) ∧
      FieldOf "t" ((Json.find "parameters" ms).getD Json.null).items Double.zero temp ∧
      FieldOf "pmean" ((Json.find "parameters" ms).getD Json.null).items Double.zero precip := by
  obtain ⟨temp, precip, hl, ht, hpm⟩ :=
    paramLoop_readable _ (Double.zero, Double.zero) hr
  have key : ∀ ms1 : List (String × Json), Json.find "parameters" ms1 = Json.find "parameters" ms →
      ∃ entry2, (do
        let (parameters, entry2) ← (Json.object ms1).atKey "parameters"
        let (temp, precip) ← paramLoop parameters.items (Double.zero, Double.zero)
        pure ((⟨(Json.find "validTime" ms).getD Json.null, temp, precip⟩ : DisplayRecord), entry2))
        = Except.ok (⟨(Json.find "validTime" ms).getD Json.null, temp, precip⟩, entry2) := by
    intro ms1 h1
    cases hp : Json.find "parameters" ms with
    | none =>
      rw [hp] at hl h1
      simp only [Option.getD_none] at hl
      refine ⟨Json.object (Json.insert "parameters" Json.null ms1), ?_⟩
      simp only [Json.atKey, h1, bind, Except.bind, pure, Except.pure]
      rw [hl]
    | some pv =>
      rw [hp] at hl h1
      simp only [Option.getD_some] at hl
      refine ⟨Json.object ms1, ?_⟩
      simp only [Json.atKey, h1, bind, Except.bind, pure, Except.pure]
      rw [hl]
  cases hv : Json.find "validTime" ms with
  | none =>
    obtain ⟨e2, he2⟩ := key (Json.insert "validTime" Json.null ms)
      (find_insert_ne _ _ _ _ (by decide))
    refine ⟨temp, precip, e2, ?_, ht, hpm⟩
    rw [hv] at he2
    simp only [entryBody, Json.atKey, hv, bind, Except.bind] at he2 ⊢
    exact he2
  | some v =>
    obtain ⟨e2, he2⟩ := key ms rfl
    refine ⟨temp, precip, e2, ?_, ht, hpm⟩
    rw [hv] at he2
    simp only [entryBody, Json.atKey, hv, bind, Except.bind] at he2 ⊢
    exact he2

theorem recordOf_wellFormed (e : Json) (h : wellFormedEntry e = true) :
    ∃ ms s ps temp precip, e = Json.object ms ∧
      Json.find "validTime" ms = some (Json.string s) ∧
      Json.find "parameters" ms = some (Json.array ps) ∧
      recordOf e = .ok ⟨Json.string s, temp, precip⟩ ∧
      FieldOf "t" ps Double.zero temp ∧ FieldOf "pmean" ps Double.zero precip := by
  unfold wellFormedEntry at h
  split at h
  · rename_i ms
    split at h
    · rename_i s ps hv hp
      have hr : ∀ p ∈ ((Json.find "parameters" ms).getD Json.null).items, readable p = true := by
        intro p hmem
        simp only [hp, Option.getD_some, Json.items] at hmem
        exact readable_of_wellFormed p (List.all_eq_true.mp h p hmem)
      obtain ⟨temp, precip, e2, hb, ht, hpm⟩ := entryBody_object ms hr
      simp only [hp, hv, Option.getD_some, Json.items] at hb ht hpm
      exact ⟨ms, s, ps, temp, precip, rfl, hv, hp, by rw [recordOf_eq, hb]; rfl, ht, hpm⟩
    · exact absurd h (by simp)
  · exact absurd h (by simp)

/-- The loop body at index `i` of an array whose `i`-th element is an object
with a `parameters` array of readable parameters -/
theorem loopBody_readable (cur : List Json) (i : Nat) (ms : List (String × Json))
    (ps : List Json) (he : cur[i]? = some (Json.object ms))
    (hps : Json.find "parameters" ms = some (Json.array ps))
    (hr : ∀ p ∈ ps, readable p = true) :
    ∃ temp precip timeSeries1,
      loopBody (Json.array cur) i =
        .ok (⟨(Json.find "validTime" ms).getD Json.null, temp, precip⟩, timeSeries1) ∧
      FieldOf "t" ps Double.zero temp ∧ FieldOf "pmean" ps Double.zero precip := by
  obtain ⟨hi, hget⟩ := List.getElem?_eq_some_iff.mp he
  have hr1 : ∀ p ∈ ((Json.find "parameters" ms).getD Json.null).items, readable p = true := by
    simpa [hps, Json.items] using hr
  obtain ⟨temp, precip, e2, hb, ht, hpm⟩ := entryBody_object ms hr1
  simp only [hps, Option.getD_some, Json.items] at ht hpm
  refine ⟨temp, precip, Json.array (cur.set i e2), ?_, ht, hpm⟩
  rw [loopBody_array cur i hi]
  have : cur.getD i Json.null = Json.object ms := by
    simp [List.getD_eq_getElem?_getD, he]
  rw [this, hb]
  rfl

/-- C1: when `timeSeries` is an array of N well-formed entries, the loop of
`main` ends normally after writing the header and one line per record, the
records are exactly min(N, 8) many, and they are the per-entry record
function mapped over the first-8 prefix of `timeSeries`, in original order. -/
theorem first_eight_records (lib : Lib) (ms : List (String × Json)) (es : List Json)
    (hts : Json.find "timeSeries" ms = some (Json.array es))
    (hwf : ∀ e ∈ es, wellFormedEntry e = true) :
    ∃ recs : List DisplayRecord,
      recs.length = min es.length 8 ∧
      (es.take 8).map recordOf = recs.map Except.ok ∧
      mainFrom lib (Json.object ms) = some ⟨written lib recs, .ok 0⟩ := by
  have hex : ∀ e ∈ es.take 8, ∃ r, recordOf e = .ok r := by
    intro e he
    obtain ⟨_, s, _, temp, precip, _, _, _, hrec, _⟩ :=
      recordOf_wellFormed e (hwf e (List.mem_of_mem_take he))
    exact ⟨_, hrec⟩
  obtain ⟨recs, hrecs⟩ := records_exist (es.take 8) hex
  refine ⟨recs, ?_, hrecs, ?_⟩
  · have := congrArg List.length hrecs
    simp only [List.length_map, List.length_take] at this
    omega
  · rw [mainFrom_array lib ms es hts, runEntries_ok lib _ recs header hrecs]
    rfl

/-- Twelve well-formed entries -/
theorem first_eight_records_witness :
    Json.find "timeSeries" [("timeSeries", Json.array longEntries)]
        = some (Json.array longEntries) ∧
      (∀ e ∈ longEntries, wellFormedEntry e = true) ∧
      ∃ recs : List DisplayRecord,
        recs.length = min longEntries.length 8 ∧
        (longEntries.take 8).map recordOf = recs.map Except.ok ∧
        mainFrom sampleLib (Json.object [("timeSeries", Json.array longEntries)])
          = some ⟨written sampleLib recs, .ok 0⟩ :=
  ⟨rfl, by decide, first_eight_records sampleLib _ longEntries rfl (by decide)⟩

/-- C2: an entry whose `parameters` list holds exactly one parameter named
`"t"` with `values[0] = a` and exactly one named `"pmean"` with
`values[0] = b`, in any order among any number of parameters with other
names, gives temperature `a` and precipitation `b`. -/
theorem record_of_t_and_pmean (cur : List Json) (i : Nat) (ms : List (String × Json))
    (ps : List Json) (pt pp : Json) (a b : Double)
    (he : cur[i]? = some (Json.object ms))
    (hps : Json.find "parameters" ms = some (Json.array ps))
    (hname : ∀ p ∈ ps, hasName p = true)
    (ht : ps.filter (named "t") = [pt]) (ha : firstValue pt = .ok a)
    (hp : ps.filter (named "pmean") = [pp]) (hb : firstValue pp = .ok b) :
    ∃ timeSeries1,
      loopBody (Json.array cur) i =
        .ok (⟨(Json.find "validTime" ms).getD Json.null, a, b⟩, timeSeries1) := by
  have hr : ∀ p ∈ ps, readable p = true := by
    intro p hmem
    have hn := hname p hmem
    by_cases h1 : named "t" p = true
    · have : p ∈ ps.filter (named "t") := List.mem_filter.mpr ⟨hmem, h1⟩
      rw [ht, List.mem_singleton] at this
      subst this
      simp [readable, hn, ha, Except.toBool]
    · by_cases h2 : named "pmean" p = true
      · have : p ∈ ps.filter (named "pmean") := List.mem_filter.mpr ⟨hmem, h2⟩
        rw [hp, List.mem_singleton] at this
        subst this
        simp [readable, hn, hb, Except.toBool]
      · simp [readable, hn, h1, h2]
  obtain ⟨temp, precip, ts1, hbody, hft, hfp⟩ := loopBody_readable cur i ms ps he hps hr
  simp only [FieldOf, ht, hp, List.getLast?_singleton, ha, hb, Except.ok.injEq] at hft hfp
  subst hft hfp
  exact ⟨ts1, hbody⟩

/-- The first sample entry: `t` = 5.5 and `pmean` = 0.2 around a parameter
named `ws` -/
theorem record_of_t_and_pmean_witness :
    fixtureEntries[0]? = some (Json.object (members "2024-05-01T10:00:00Z" params1)) ∧
    Json.find "parameters" (members "2024-05-01T10:00:00Z" params1)
      = some (Json.array params1) ∧
    (∀ p ∈ params1, hasName p = true) ∧
    params1.filter (named "t") = [parameter "t" d5_5] ∧
    firstValue (parameter "t" d5_5) = .ok d5_5 ∧
    params1.filter (named "pmean") = [parameter "pmean" d0_2] ∧
    firstValue (parameter "pmean" d0_2) = .ok d0_2 ∧
    ∃ timeSeries1,
      loopBody (Json.array fixtureEntries) 0 =
        .ok (⟨(Json.find "validTime" (members "2024-05-01T10:00:00Z" params1)).getD Json.null,
          d5_5, d0_2⟩, timeSeries1) :=
  ⟨rfl, rfl, by decide, rfl, rfl, rfl, rfl,
    record_of_t_and_pmean fixtureEntries 0 (members "2024-05-01T10:00:00Z" params1) params1
      (parameter "t" d5_5) (parameter "pmean" d0_2) d5_5 d0_2 rfl rfl (by decide) rfl rfl rfl rfl⟩

/-- C3: for an entry whose parameters can be read (as every well-formed
parameter can, `readable_of_wellFormed`), with no parameter named `"t"` the
temperature is 0.0, with none named `"pmean"` the precipitation is 0.0, and
either default leaves the other field as the parameters of its own name give
it. -/
theorem defaults_are_independent (cur : List Json) (i : Nat) (ms : List (String × Json))
    (ps : List Json) (he : cur[i]? = some (Json.object ms))
    (hps : Json.find "parameters" ms = some (Json.array ps))
    (hr : ∀ p ∈ ps, readable p = true) :
    ∃ temp precip timeSeries1,
      loopBody (Json.array cur) i =
        .ok (⟨(Json.find "validTime" ms).getD Json.null, temp, precip⟩, timeSeries1) ∧
      ((∀ p ∈ ps, named "t" p = false) → temp = Double.zero) ∧
      ((∀ p ∈ ps, named "pmean" p = false) → precip = Double.zero) ∧
      ((∀ p ∈ ps, named "t" p = false) → ∀ pl x,
        (ps.filter (named "pmean")).getLast? = some pl → firstValue pl = .ok x → precip = x) ∧
      ((∀ p ∈ ps, named "pmean" p = false) → ∀ pl x,
        (ps.filter (named "t")).getLast? = some pl → firstValue pl = .ok x → temp = x) := by
  obtain ⟨temp, precip, ts1, hbody, hft, hfp⟩ := loopBody_readable cur i ms ps he hps hr
  refine ⟨temp, precip, ts1, hbody, ?_, ?_, ?_, ?_⟩
  · intro hno
    have : ps.filter (named "t") = [] := List.filter_eq_nil_iff.mpr (by simpa using hno)
    simpa [FieldOf, this] using hft
  · intro hno
    have : ps.filter (named "pmean") = [] := List.filter_eq_nil_iff.mpr (by simpa using hno)
    simpa [FieldOf, this] using hfp
  · intro _ pl x hl hx
    simp only [FieldOf, hl, hx, Except.ok.injEq] at hfp
    exact hfp.symm
  · intro _ pl x hl hx
    simp only [FieldOf, hl, hx, Except.ok.injEq] at hft
    exact hft.symm

/-- The third sample entry has two `t` parameters and no `pmean` -/
theorem defaults_are_independent_witness :
    fixtureEntries[2]? = some (Json.object (members "2024-05-01T12:00:00Z" params3)) ∧
    Json.find "parameters" (members "2024-05-01T12:00:00Z" params3)
      = some (Json.array params3) ∧
    (∀ p ∈ params3, readable p = true) ∧
    (∀ p ∈ params3, named "pmean" p = false) ∧
    loopBody (Json.array fixtureEntries) 2 =
      .ok (⟨Json.string "2024-05-01T12:00:00Z", d2_0, Double.zero⟩,
        Json.array fixtureEntries) ∧
    ∃ temp precip timeSeries1,
      loopBody (Json.array fixtureEntries) 2 =
        .ok (⟨(Json.find "validTime" (members "2024-05-01T12:00:00Z" params3)).getD Json.null,
          temp, precip⟩, timeSeries1) ∧
      ((∀ p ∈ params3, named "t" p = false) → temp = Double.zero) ∧
      ((∀ p ∈ params3, named "pmean" p = false) → precip = Double.zero) ∧
      ((∀ p ∈ params3, named "t" p = false) → ∀ pl x,
        (params3.filter (named "pmean")).getLast? = some pl → firstValue pl = .ok x →
          precip = x) ∧
      ((∀ p ∈ params3, named "pmean" p = false) → ∀ pl x,
        (params3.filter (named "t")).getLast? = some pl → firstValue pl = .ok x → temp = x) :=
  ⟨rfl, rfl, by decide, by decide, rfl,
    defaults_are_independent fixtureEntries 2 (members "2024-05-01T12:00:00Z" params3) params3
      rfl rfl (by decide)⟩

/-- C4: for an entry whose parameters can be read (as every well-formed
parameter can, `readable_of_wellFormed`), the temperature is `values[0]` of
the last parameter named `"t"` in list order, and the precipitation is
`values[0]` of the last parameter named `"pmean"`, whatever matching
parameters come before it. -/
theorem last_match_wins (cur : List Json) (i : Nat) (ms : List (String × Json))
    (ps : List Json) (he : cur[i]? = some (Json.object ms))
    (hps : Json.find "parameters" ms = some (Json.array ps))
    (hr : ∀ p ∈ ps, readable p = true) :
    ∃ temp precip timeSeries1,
      loopBody (Json.array cur) i =
        .ok (⟨(Json.find "validTime" ms).getD Json.null, temp, precip⟩, timeSeries1) ∧
      (∀ pl x, (ps.filter (named "t")).getLast? = some pl → firstValue pl = .ok x →
        temp = x) ∧
      (∀ pl x, (ps.filter (named "pmean")).getLast? = some pl → firstValue pl = .ok x →
        precip = x) := by
  obtain ⟨temp, precip, ts1, hbody, hft, hfp⟩ := loopBody_readable cur i ms ps he hps hr
  refine ⟨temp, precip, ts1, hbody, ?_, ?_⟩
  · intro pl x hl hx
    simp only [FieldOf, hl, hx, Except.ok.injEq] at hft
    exact hft.symm
  · intro pl x hl hx
    simp only [FieldOf, hl, hx, Except.ok.injEq] at hfp
    exact hfp.symm

/-- Two `t` parameters with values 1.0 then 2.0 give the temperature 2.0 -/
theorem last_match_wins_witness :
    [Json.object (members "2024-05-01T12:00:00Z" params3)][0]?
      = some (Json.object (members "2024-05-01T12:00:00Z" params3)) ∧
    Json.find "parameters" (members "2024-05-01T12:00:00Z" params3)
      = some (Json.array params3) ∧
    (∀ p ∈ params3, readable p = true) ∧
    (params3.filter (named "t")).getLast? = some (parameter "t" d2_0) ∧
    firstValue (parameter "t" d2_0) = .ok d2_0 ∧
    ∃ temp precip timeSeries1,
      loopBody (Json.array [Json.object (members "2024-05-01T12:00:00Z" params3)]) 0 =
        .ok (⟨(Json.find "validTime" (members "2024-05-01T12:00:00Z" params3)).getD Json.null,
          temp, precip⟩, timeSeries1) ∧
      (∀ pl x, (params3.filter (named "t")).getLast? = some pl → firstValue pl = .ok x →
        temp = x) ∧
      (∀ pl x, (params3.filter (named "pmean")).getLast? = some pl → firstValue pl = .ok x →
        precip = x) :=
  ⟨rfl, rfl, by decide, rfl, rfl,
    last_match_wins [Json.object (members "2024-05-01T12:00:00Z" params3)] 0
      (members "2024-05-01T12:00:00Z" params3) params3 rfl rfl (by decide)⟩

/-! ## Lemmas on the output text -/

theorem digitChar_ne_newline (n : Nat) (h : n < 16) : Nat.digitChar n ≠ newline := by
  interval_cases n <;> decide

theorem escapeChar_no_newline (c : Char) : newline ∉ (Json.escapeChar c).data := by
  unfold Json.escapeChar
  split_ifs with h1 h2 h3 h4 h5 h6 h7 h8
  all_goals first
    | decide
    | skip
  · have ha := digitChar_ne_newline (c.toNat / 16) (by omega)
    have hb := digitChar_ne_newline (c.toNat % 16) (by omega)
    have hc : newline ∉ "\\u00".data := by decide
    simp only [String.data_append, List.mem_append, not_or]
    refine ⟨⟨hc, ?_⟩, ?_⟩
    · show newline ∉ [Nat.digitChar (c.toNat / 16)]
      simpa using ha.symm
    · show newline ∉ [Nat.digitChar (c.toNat % 16)]
      simpa using hb.symm
  · show newline ∉ [c]
    intro hmem
    have : newline = c := by simpa using hmem
    exact h3 (by rw [← this]; rfl)

theorem dump_escaped_no_newline (s : String) : newline ∉ (Json.dump_escaped s).data := by
  unfold Json.dump_escaped
  rw [String.data_join]
  intro hmem
  obtain ⟨l, hl, hin⟩ := List.mem_flatten.mp hmem
  obtain ⟨t, ht, rfl⟩ := List.mem_map.mp hl
  obtain ⟨c, _, rfl⟩ := List.mem_map.mp ht
  exact escapeChar_no_newline c hin

theorem count_jsonLine (lib : Lib) (s : String) (temp precip : Double)
    (hshow : ∀ x, newline ∉ (lib.showDouble x).data) :
    (jsonLine lib s temp precip).data.count newline = 1 := by
  simp only [jsonLine, String.data_append, List.count_append,
    List.count_eq_zero_of_not_mem (dump_escaped_no_newline s),
    List.count_eq_zero_of_not_mem (hshow temp), List.count_eq_zero_of_not_mem (hshow precip)]
  decide

theorem count_foldl (lines : List String) (out : String)
    (h : ∀ l ∈ lines, l.data.count newline = 1) :
    (lines.foldl (fun a b => a ++ b) out).data.count newline
      = out.data.count newline + lines.length := by
  induction lines generalizing out with
  | nil => simp
  | cons l ls ih =>
    rw [List.foldl_cons, ih _ (fun x hx => h x (List.mem_cons_of_mem _ hx))]
    simp only [String.data_append, List.count_append, List.length_cons,
      h l (List.mem_cons_self _ _)]
    omega

theorem printRecord_string (lib : Lib) (s : String) (temp precip : Double) :
    printRecord lib ⟨Json.string s, temp, precip⟩ = jsonLine lib s temp precip := by
  simp [printRecord, jsonLine, Json.dump]

theorem lines_exist (lib : Lib) (es : List Json) (hwf : ∀ e ∈ es, wellFormedEntry e = true) :
    ∃ recs : List DisplayRecord, es.map recordOf = recs.map Except.ok ∧
      List.Forall₂ (LineOf lib) es (recs.map (printRecord lib)) := by
  induction es with
  | nil => exact ⟨[], rfl, List.Forall₂.nil⟩
  | cons e es ih =>
    obtain ⟨ms, s, _, temp, precip, he, hv, _, hrec, _⟩ :=
      recordOf_wellFormed e (hwf e (List.mem_cons_self _ _))
    obtain ⟨rs, hrs, hall⟩ := ih (fun x hx => hwf x (List.mem_cons_of_mem _ hx))
    refine ⟨⟨Json.string s, temp, precip⟩ :: rs, by simp [hrec, hrs], ?_⟩
    simp only [List.map_cons]
    exact List.Forall₂.cons ⟨ms, s, temp, precip, he, hv, hrec, printRecord_string lib s temp precip⟩ hall

theorem lineOf_of_mem (lib : Lib) (es : List Json) (lines : List String)
    (h : List.Forall₂ (LineOf lib) es lines) : ∀ l ∈ lines, ∃ e, LineOf lib e l := by
  induction h with
  | nil => intro l hl; simp at hl
  | cons hr _ ih =>
    intro l hl
    rcases List.mem_cons.mp hl with rfl | hl1
    · exact ⟨_, hr⟩
    · exact ih l hl1

/-- C5, amended: for a well-formed document standard output is the header
followed by one line per record, in record order, each of the form
`"<validTime>" | <temperature>°C, <precipitation> mm precipitation` with the
timestamp written as JSON text (between double quotes, escaped); when the
number texts hold no line feed the output has 1 + min(N, 8) lines. -/
theorem output_lines (lib : Lib) (ms : List (String × Json)) (es : List Json)
    (hts : Json.find "timeSeries" ms = some (Json.array es))
    (hwf : ∀ e ∈ es, wellFormedEntry e = true) :
    ∃ lines : List String,
      List.Forall₂ (LineOf lib) (es.take 8) lines ∧
      mainFrom lib (Json.object ms)
        = some ⟨lines.foldl (fun a b => a ++ b) header, .ok 0⟩ ∧
      ((∀ x, newline ∉ (lib.showDouble x).data) →
        (lines.foldl (fun a b => a ++ b) header).data.count newline
          = 1 + min es.length 8) := by
  obtain ⟨recs, hrecs, hall⟩ :=
    lines_exist lib (es.take 8) (fun e he => hwf e (List.mem_of_mem_take he))
  refine ⟨recs.map (printRecord lib), hall, ?_, ?_⟩
  · rw [mainFrom_array lib ms es hts, runEntries_ok lib _ recs header hrecs, List.foldl_map]
  · intro hshow
    have hlen := hall.length_eq
    rw [count_foldl]
    · have hh : header.data.count newline = 1 := by decide
      rw [hh, ← hlen, List.length_take]
      omega
    · intro l hl
      obtain ⟨e, _, s, temp, precip, _, _, _, hline⟩ := lineOf_of_mem lib _ _ hall l hl
      rw [hline]
      exact count_jsonLine lib s temp precip hshow

/-- The sample response of three entries gives four lines -/
theorem output_lines_witness :
    Json.find "timeSeries" [("timeSeries", Json.array fixtureEntries)]
        = some (Json.array fixtureEntries) ∧
    (∀ e ∈ fixtureEntries, wellFormedEntry e = true) ∧
    (∀ x, newline ∉ (sampleLib.showDouble x).data) ∧
    mainFrom sampleLib fixture = some ⟨"Karlskrona väder idag:\n"
        ++ "\"2024-05-01T10:00:00Z\" | 5.5°C, 0.2 mm precipitation\n"
        ++ "\"2024-05-01T11:00:00Z\" | 2°C, 0 mm precipitation\n"
        ++ "\"2024-05-01T12:00:00Z\" | 2°C, 0 mm precipitation\n", .ok 0⟩ ∧
    ∃ lines : List String,
      List.Forall₂ (LineOf sampleLib) (fixtureEntries.take 8) lines ∧
      mainFrom sampleLib (Json.object [("timeSeries", Json.array fixtureEntries)])
        = some ⟨lines.foldl (fun a b => a ++ b) header, .ok 0⟩ ∧
      ((∀ x, newline ∉ (sampleLib.showDouble x).data) →
        (lines.foldl (fun a b => a ++ b) header).data.count newline
          = 1 + min fixtureEntries.length 8) :=
  ⟨rfl, by decide,
    fun x => by
      show newline ∉ (if x = Double.zero then "0" else if x = d5_5 then "5.5"
        else if x = d0_2 then "0.2" else if x = d1_0 then "1" else if x = d2_0 then "2"
        else "?").data
      split_ifs <;> decide,
    rfl, output_lines sampleLib _ fixtureEntries rfl (by decide)⟩

/-- C5 fails as stated: on the sample response no choice of number texts
makes standard output the header followed by lines that start with the
`validTime` text verbatim. -/
theorem timestamp_not_verbatim :
    ¬ ∃ lib : Lib, (mainFrom lib fixture).map Outcome.stdout
      = some (header ++ specLine lib "2024-05-01T10:00:00Z" d5_5 d0_2
          ++ specLine lib "2024-05-01T11:00:00Z" d2_0 Double.zero
          ++ specLine lib "2024-05-01T12:00:00Z" d2_0 Double.zero) := by
  rintro ⟨lib, h⟩
  have hrun : mainFrom lib fixture = some ⟨header
      ++ jsonLine lib "2024-05-01T10:00:00Z" d5_5 d0_2
      ++ jsonLine lib "2024-05-01T11:00:00Z" d2_0 Double.zero
      ++ jsonLine lib "2024-05-01T12:00:00Z" d2_0 Double.zero, .ok 0⟩ := rfl
  rw [hrun] at h
  simp only [Option.map, Option.some.injEq] at h
  have hd := congrArg String.data h
  simp only [String.data_append, jsonLine, specLine, List.append_assoc,
    List.append_cancel_left_eq] at hd
  have hh := congrArg List.head? hd
  simp at hh

/-- C6: when `json::parse` rejects the body, `parse_json` returns the JSON
string "Json parse error!", and `main` then writes nothing at all (no header,
no forecast line) before it ends on the uncaught `type_error` 305 that
indexing a string with `"timeSeries"` throws. -/
theorem malformed_body (lib : Lib) (buffer : List UInt8) (h : lib.parse buffer = none) :
    parse_json lib buffer = Json.string "Json parse error!" ∧
    mainFrom lib (parse_json lib buffer) = some ⟨"", .error (.type_error 305)⟩ ∧
    ∀ curl, smhi curl = .ok buffer → main lib curl = some ⟨"", .error (.type_error 305)⟩ := by
  have hp : parse_json lib buffer = Json.string "Json parse error!" := by
    simp [parse_json, h]
  refine ⟨hp, by rw [hp]; rfl, ?_⟩
  intro curl hc
  simp only [main, hc, hp]
  rfl

/-- The body `not json`, delivered in one chunk -/
theorem malformed_body_witness :
    sampleLib.parse (bytes "not json") = none ∧
    smhi (some ⟨[⟨bytes "not json", 1, 8⟩], 0⟩) = .ok (bytes "not json") ∧
    parse_json sampleLib (bytes "not json") = Json.string "Json parse error!" ∧
    mainFrom sampleLib (parse_json sampleLib (bytes "not json"))
      = some ⟨"", .error (.type_error 305)⟩ ∧
    ∀ curl, smhi curl = .ok (bytes "not json") →
      main sampleLib curl = some ⟨"", .error (.type_error 305)⟩ :=
  ⟨rfl, rfl, malformed_body sampleLib (bytes "not json") rfl⟩

/-- C7 fails as stated: the well-formed response `[]` has no `timeSeries`
key, and `main` ends on an uncaught `type_error` 305. -/
theorem array_root_crashes :
    mainFrom sampleLib (Json.array []) = some ⟨"", .error (.type_error 305)⟩ := rfl

/-- C7, amended: a root without a `timeSeries` key that is an object or null
gives the header alone, no record and a normal end with status 0, without any
schema error; a root that is an array, a string, a number or a boolean ends
`main` on an uncaught `type_error` 305 before anything is written. -/
theorem missing_timeSeries (lib : Lib) (root : Json)
    (h : ∀ ms, root = Json.object ms → Json.find "timeSeries" ms = none) :
    mainFrom lib root = some
      (match root with
       | .null => ⟨header, .ok 0⟩
       | .object _ => ⟨header, .ok 0⟩
       | _ => ⟨"", .error (.type_error 305)⟩) := by
  cases root with
  | object ms =>
    have hm := h ms rfl
    simp only [mainFrom, Json.atKey, hm]
    rfl
  | _ => rfl

/-- The roots `{}` and `7` -/
theorem missing_timeSeries_witness :
    (∀ ms, Json.object [] = Json.object ms → Json.find "timeSeries" ms = none) ∧
    mainFrom sampleLib (Json.object []) = some ⟨header, .ok 0⟩ ∧
    mainFrom sampleLib (Json.number_unsigned 7) = some ⟨"", .error (.type_error 305)⟩ :=
  ⟨fun ms h => by cases h; rfl,
    missing_timeSeries sampleLib (Json.object []) (fun ms h => by cases h; rfl),
    missing_timeSeries sampleLib (Json.number_unsigned 7) (fun ms h => by cases h)⟩

/-- C9 fails as stated: with `timeSeries` absent, `main` writes the header
and returns 0; no error is raised. -/
theorem absent_timeSeries_returns :
    mainFrom sampleLib (Json.object [("approvedTime", Json.string "2024-05-01T09:00:00Z")])
      = some ⟨header, .ok 0⟩ := rfl

/-- C9, amended: `main` ends on an uncaught `type_error` 305 when the root
is an array, a string, a number or a boolean (at the read of `timeSeries`,
before the header) and when `timeSeries` is a string, a number, a boolean or
an object with members (at the first `timeSeries[i]`, after the header).
When the root is null, or `timeSeries` is absent from an object root, null or
an empty object, no error is raised: `main` writes the header and returns
0. -/
theorem timeSeries_not_array (lib : Lib) (root : Json)
    (h : ∀ ms es, root = Json.object ms → Json.find "timeSeries" ms ≠ some (Json.array es)) :
    mainFrom lib root = some
      (match root with
       | .null => ⟨header, .ok 0⟩
       | .object ms => ⟨header,
          match Json.find "timeSeries" ms with
          | none => .ok 0
          | some .null => .ok 0
          | some (.object []) => .ok 0
          | some _ => .error (.type_error 305)⟩
       | _ => ⟨"", .error (.type_error 305)⟩) := by
  cases root with
  | object ms =>
    cases hf : Json.find "timeSeries" ms with
    | none => simp only [mainFrom, Json.atKey, hf]; rfl
    | some ts =>
      cases ts with
      | array es => exact absurd hf (h ms es rfl)
      | object members =>
        cases members with
        | nil => simp only [mainFrom, Json.atKey, hf]; rfl
        | cons m rest =>
          simp [mainFrom, Json.atKey, hf, forLoop, Json.size, loopBody, entryMember,
            Json.atIndex, bind, Except.bind]
      | _ => simp only [mainFrom, Json.atKey, hf]; rfl
  | _ => rfl

/-- A string, and an object with one member, in the place of the array -/
theorem timeSeries_not_array_witness :
    (∀ ms es, Json.object [("timeSeries", Json.string "none")] = Json.object ms →
      Json.find "timeSeries" ms ≠ some (Json.array es)) ∧
    mainFrom sampleLib (Json.object [("timeSeries", Json.string "none")])
      = some ⟨header, .error (.type_error 305)⟩ ∧
    mainFrom sampleLib (Json.object [("timeSeries", Json.object [("0", Json.null)])])
      = some ⟨header, .error (.type_error 305)⟩ ∧
    mainFrom sampleLib (Json.object [("timeSeries", Json.object [])])
      = some ⟨header, .ok 0⟩ :=
  ⟨fun ms es h => by cases h; simp [Json.find],
    timeSeries_not_array sampleLib (Json.object [("timeSeries", Json.string "none")])
      (fun ms es h => by cases h; simp [Json.find]),
    timeSeries_not_array sampleLib
      (Json.object [("timeSeries", Json.object [("0", Json.null)])])
      (fun ms es h => by cases h; simp [Json.find]),
    timeSeries_not_array sampleLib (Json.object [("timeSeries", Json.object [])])
      (fun ms es h => by cases h; simp [Json.find])⟩

/-! ## Lemmas on failing reads -/

theorem paramStep_unreadable (p : Json) (st : Double × Double) (h : readable p = false) :
    ∃ x, paramStep p st = .error x := by
  cases p with
  | object ms =>
    cases hn : Json.find "name" ms with
    | none => exact ⟨.assertion, by simp [paramStep, Json.atKeyConst, hn, bind, Except.bind]⟩
    | some n =>
      simp only [readable, hasName, named, hn, Option.isSome_some, Bool.true_and] at h
      simp only [paramStep, Json.atKeyConst, hn, bind, Except.bind, pure, Except.pure]
      cases hv : firstValue (Json.object ms) with
      | ok v => simp [hv, Except.toBool] at h
      | error x =>
        cases ht : n.eqString "t" <;> cases hp : n.eqString "pmean" <;>
          simp [ht, hp, hv, Except.toBool] at h ⊢
  | _ => exact ⟨.type_error 305, rfl⟩

theorem paramLoop_unreadable (ps : List Json) (st : Double × Double)
    (h : ∃ p ∈ ps, readable p = false) : ∃ x, paramLoop ps st = .error x := by
  induction ps generalizing st with
  | nil => obtain ⟨p, hp, _⟩ := h; simp at hp
  | cons q qs ih =>
    cases hq : paramStep q st with
    | error x => exact ⟨x, by simp [paramLoop, hq, bind, Except.bind]⟩
    | ok st1 =>
      obtain ⟨p, hp, hr⟩ := h
      rcases List.mem_cons.mp hp with rfl | hp1
      · obtain ⟨x, hx⟩ := paramStep_unreadable p st hr
        rw [hx] at hq
        cases hq
      · obtain ⟨x, hx⟩ := ih st1 ⟨p, hp1, hr⟩
        exact ⟨x, by simp [paramLoop, hq, hx, bind, Except.bind]⟩

theorem recordOf_unreadable (ms : List (String × Json)) (ps : List Json) (p : Json)
    (hps : Json.find "parameters" ms = some (Json.array ps)) (hp : p ∈ ps)
    (hr : readable p = false) : ∃ x, recordOf (Json.object ms) = .error x := by
  obtain ⟨x, hx⟩ := paramLoop_unreadable ps (Double.zero, Double.zero) ⟨p, hp, hr⟩
  refine ⟨x, ?_⟩
  rw [recordOf_eq]
  cases hv : Json.find "validTime" ms with
  | none =>
    have hp1 : Json.find "parameters" (Json.insert "validTime" Json.null ms)
        = some (Json.array ps) := by
      rw [find_insert_ne _ _ _ _ (by decide), hps]
    simp [entryBody, Json.atKey, hv, hp1, Json.items, hx, bind, Except.bind, Except.map]
  | some v =>
    simp [entryBody, Json.atKey, hv, hps, Json.items, hx, bind, Except.bind, Except.map]

theorem runEntries_error (lib : Lib) (es : List Json) (out : String) (e : Json) (x : Failure)
    (he : e ∈ es) (hx : recordOf e = .error x) :
    ∃ out1 y, runEntries lib es out = ⟨out1, .error y⟩ := by
  induction es generalizing out with
  | nil => simp at he
  | cons a as ih =>
    cases ha : recordOf a with
    | error y => exact ⟨out, y, by simp [runEntries, ha]⟩
    | ok r =>
      rcases List.mem_cons.mp he with rfl | he1
      · rw [hx] at ha
        cases ha
      · obtain ⟨out1, y, hy⟩ := ih (out ++ printRecord lib r) he1
        exact ⟨out1, y, by simp [runEntries, ha, hy]⟩

theorem writeCallback_exact (s c : List UInt8) (size nmemb : Nat)
    (hlen : c.length = size * nmemb) (hfit : size * nmemb < 2 ^ 64) :
    WriteCallback c size nmemb s = .ok (size * nmemb, s ++ c) := by
  have hmod : size * nmemb % 2 ^ 64 = size * nmemb := Nat.mod_eq_of_lt hfit
  unfold WriteCallback
  simp only [hmod]
  rw [← hlen, if_pos (le_refl _), List.take_length]

theorem perform_wellFormed (res : Nat) (chunks : List Chunk) (buffer : List UInt8)
    (h : ∀ k ∈ chunks, wellFormedChunk k = true) :
    curl_easy_perform res chunks buffer =
      .ok (res, chunks.map (fun k => k.size * k.nmemb),
        buffer ++ (chunks.map Chunk.contents).flatten) := by
  induction chunks generalizing buffer with
  | nil => simp [curl_easy_perform]
  | cons c cs ih =>
    have hc := h c (List.mem_cons_self _ _)
    simp only [wellFormedChunk, Bool.and_eq_true, decide_eq_true_eq] at hc
    simp only [curl_easy_perform, writeCallback_exact buffer c.contents c.size c.nmemb hc.1 hc.2,
      if_true]
    rw [ih _ (fun k hk => h k (List.mem_cons_of_mem _ hk))]
    simp

/-- C8 fails as stated: a `t` parameter whose `values[0]` is a string ends
`main` on an uncaught `type_error` 302 after the header; no record with
temperature 0.0 is written. -/
theorem text_value_aborts :
    mainFrom sampleLib textValueDocument = some ⟨header, .error (.type_error 302)⟩ := rfl

/-- C8, amended: an entry that lacks `validTime` or `parameters`, and a null
entry, still give a record (timestamp null, both numbers 0.0 without
parameters).  A parameter without `name`, a parameter named `"t"` or
`"pmean"` without `values`, with empty `values` or with a `values[0]` that is
no number, and an element that is neither object nor null give no record:
the read fails, and a failing entry among the first eight ends `main`
abnormally. -/
theorem missing_fields (lib : Lib) :
    recordOf Json.null = .ok ⟨Json.null, Double.zero, Double.zero⟩ ∧
    (∀ ms, Json.find "parameters" ms = none →
      recordOf (Json.object ms)
        = .ok ⟨(Json.find "validTime" ms).getD Json.null, Double.zero, Double.zero⟩) ∧
    (∀ ms ps, Json.find "validTime" ms = none →
      Json.find "parameters" ms = some (Json.array ps) → (∀ p ∈ ps, readable p = true) →
      ∃ temp precip, recordOf (Json.object ms) = .ok ⟨Json.null, temp, precip⟩) ∧
    (∀ e, e ≠ Json.null → (∀ ms, e ≠ Json.object ms) →
      recordOf e = .error (.type_error 305)) ∧
    (∀ pm st, Json.find "name" pm = none →
      paramStep (Json.object pm) st = .error .assertion) ∧
    (∀ p st x, (named "t" p = true ∨ named "pmean" p = true) → firstValue p = .error x →
      paramStep p st = .error x) ∧
    (∀ pm, Json.find "values" pm = none → firstValue (Json.object pm) = .error .assertion) ∧
    (∀ pm, Json.find "values" pm = some (Json.array []) →
      firstValue (Json.object pm) = .error .undefined) ∧
    (∀ pm v vs, Json.find "values" pm = some (Json.array (v :: vs)) → isNumber v = false →
      firstValue (Json.object pm) = .error (.type_error 302)) ∧
    (∀ ms ps p, Json.find "parameters" ms = some (Json.array ps) → p ∈ ps →
      readable p = false → ∃ x, recordOf (Json.object ms) = .error x) ∧
    (∀ ms es e x, Json.find "timeSeries" ms = some (Json.array es) → e ∈ es.take 8 →
      recordOf e = .error x →
      ∃ out y, mainFrom lib (Json.object ms) = some ⟨out, .error y⟩) := by
  refine ⟨rfl, ?_, ?_, ?_, ?_, ?_, ?_, ?_, ?_, ?_, ?_⟩
  · intro ms hp
    obtain ⟨temp, precip, e2, hb, ht, hpm⟩ := entryBody_object ms (by simp [hp, Json.items])
    simp only [hp, Option.getD_none, Json.items, FieldOf, List.filter_nil,
      List.getLast?_nil] at ht hpm
    rw [recordOf_eq, hb, ht, hpm]
    rfl
  · intro ms ps hv hp hr
    obtain ⟨temp, precip, e2, hb, _, _⟩ :=
      entryBody_object ms (by simpa [hp, Json.items] using hr)
    refine ⟨temp, precip, ?_⟩
    rw [recordOf_eq, hb, hv]
    rfl
  · intro e h1 h2
    cases e with
    | null => exact absurd rfl h1
    | object ms => exact absurd rfl (h2 ms)
    | _ => rfl
  · intro pm st hn
    simp [paramStep, Json.atKeyConst, hn, bind, Except.bind]
  · intro p st x hnamed hx
    cases p with
    | object pm =>
      cases hn : Json.find "name" pm with
      | none => simp [named, hn] at hnamed
      | some n =>
        simp only [named, hn] at hnamed
        simp only [paramStep, Json.atKeyConst, hn, bind, Except.bind, pure, Except.pure, hx]
        cases ht : n.eqString "t" <;> cases hp : n.eqString "pmean" <;>
          simp [ht, hp] at hnamed ⊢
    | _ => simp [named] at hnamed
  · intro pm hv
    simp [firstValue, Json.atKeyConst, hv, bind, Except.bind]
  · intro pm hv
    simp [firstValue, Json.atKeyConst, hv, Json.atIndexConst, bind, Except.bind]
  · intro pm v vs hv hnum
    cases v <;> simp [isNumber] at hnum <;>
      simp [firstValue, Json.atKeyConst, hv, Json.atIndexConst, Json.toDouble, bind, Except.bind]
  · intro ms ps p hps hp hr
    exact recordOf_unreadable ms ps p hps hp hr
  · intro ms es e x hts he hx
    obtain ⟨out, y, hy⟩ := runEntries_error lib _ header e x he hx
    exact ⟨out, y, by rw [mainFrom_array lib ms es hts, hy]⟩

/-- Entries without `parameters`, without `validTime`, and a parameter that
has a name but no `values` -/
theorem missing_fields_witness :
    recordOf (Json.object [("validTime", Json.string "2024-05-01T10:00:00Z")])
      = .ok ⟨Json.string "2024-05-01T10:00:00Z", Double.zero, Double.zero⟩ ∧
    (∃ temp precip,
      recordOf (Json.object [("parameters", Json.array params1)])
        = .ok ⟨Json.null, temp, precip⟩) ∧
    recordOf (Json.number_unsigned 7) = .error (.type_error 305) ∧
    paramStep (Json.object [("values", Json.array [Json.number_float d1_0])])
      (Double.zero, Double.zero) = .error .assertion ∧
    firstValue (Json.object [("name", Json.string "t")]) = .error .assertion ∧
    paramStep (Json.object [("name", Json.string "t")]) (Double.zero, Double.zero)
      = .error .assertion ∧
    firstValue (Json.object [("name", Json.string "t"), ("values", Json.array [])])
      = .error .undefined ∧
    firstValue (Json.object [("name", Json.string "t"),
      ("values", Json.array [Json.boolean true])]) = .error (.type_error 302) ∧
    (∃ x, recordOf (Json.object [("parameters",
      Json.array [parameter "t" d1_0, Json.object [("name", Json.string "pmean")]])])
        = .error x) ∧
    (∃ out y, mainFrom sampleLib (Json.object [("timeSeries",
      Json.array [Json.null, Json.number_unsigned 7])]) = some ⟨out, .error y⟩) :=
  ⟨(missing_fields sampleLib).2.1 _ rfl,
    (missing_fields sampleLib).2.2.1 _ params1 rfl rfl (by decide),
    (missing_fields sampleLib).2.2.2.1 _ (by simp) (by simp),
    (missing_fields sampleLib).2.2.2.2.1 _ _ rfl,
    (missing_fields sampleLib).2.2.2.2.2.2.1 _ rfl,
    (missing_fields sampleLib).2.2.2.2.2.1 _ _ _ (Or.inl rfl)
      ((missing_fields sampleLib).2.2.2.2.2.2.1 _ rfl),
    (missing_fields sampleLib).2.2.2.2.2.2.2.1 _ rfl,
    (missing_fields sampleLib).2.2.2.2.2.2.2.2.1 _ _ _ rfl rfl,
    (missing_fields sampleLib).2.2.2.2.2.2.2.2.2.1 _ _
      (Json.object [("name", Json.string "pmean")]) rfl (by simp) rfl,
    (missing_fields sampleLib).2.2.2.2.2.2.2.2.2.2 _ _ (Json.number_unsigned 7) _ rfl
      (by simp) rfl⟩

/-- C10: `WriteCallback` appends the `size * nmemb` bytes of the chunk to the
buffer and returns `size * nmemb`; a transfer that delivers well-formed
chunks to the empty buffer leaves their concatenation in delivery order, as
long as the sum of the returned values, and `smhi` returns it. -/
theorem writeCallback_accumulates (s c : List UInt8) (size nmemb : Nat)
    (hlen : c.length = size * nmemb) (hfit : size * nmemb < 2 ^ 64)
    (res : Nat) (chunks : List Chunk) (hall : ∀ k ∈ chunks, wellFormedChunk k = true) :
    WriteCallback c size nmemb s = .ok (size * nmemb, s ++ c) ∧
    ∃ returned : List Nat,
      curl_easy_perform res chunks []
        = .ok (res, returned, (chunks.map Chunk.contents).flatten) ∧
      returned = chunks.map (fun k => k.size * k.nmemb) ∧
      ((chunks.map Chunk.contents).flatten).length = returned.sum ∧
      smhi (some ⟨chunks, 0⟩) = .ok ((chunks.map Chunk.contents).flatten) := by
  refine ⟨writeCallback_exact s c size nmemb hlen hfit, _, ?_, rfl, ?_, ?_⟩
  · simpa using perform_wellFormed res chunks [] hall
  · clear hlen hfit
    induction chunks with
    | nil => rfl
    | cons k ks ih =>
      have hk := hall k (List.mem_cons_self _ _)
      simp only [wellFormedChunk, Bool.and_eq_true, decide_eq_true_eq] at hk
      simp only [List.map_cons, List.flatten_cons, List.length_append, List.sum_cons, hk.1]
      rw [ih (fun x hx => hall x (List.mem_cons_of_mem _ hx))]
  · simp [smhi, perform_wellFormed 0 chunks [] hall]

/-- The body `not json` delivered as `not ` and `json` -/
theorem writeCallback_accumulates_witness :
    (bytes "json").length = 1 * 4 ∧ 1 * 4 < 2 ^ 64 ∧
    (∀ k ∈ [(⟨bytes "not ", 1, 4⟩ : Chunk), ⟨bytes "json", 2, 2⟩], wellFormedChunk k = true) ∧
    WriteCallback (bytes "json") 1 4 (bytes "not ") = .ok (4, bytes "not json") ∧
    WriteCallback (bytes "json") 1 4 (bytes "not ") = .ok (1 * 4, bytes "not " ++ bytes "json") ∧
    ∃ returned : List Nat,
      curl_easy_perform 0 [⟨bytes "not ", 1, 4⟩, ⟨bytes "json", 2, 2⟩] []
        = .ok (0, returned,
          (List.map Chunk.contents [⟨bytes "not ", 1, 4⟩, ⟨bytes "json", 2, 2⟩]).flatten) ∧
      returned = List.map (fun k => k.size * k.nmemb)
        [(⟨bytes "not ", 1, 4⟩ : Chunk), ⟨bytes "json", 2, 2⟩] ∧
      ((List.map Chunk.contents
        [⟨bytes "not ", 1, 4⟩, ⟨bytes "json", 2, 2⟩]).flatten).length = returned.sum ∧
      smhi (some ⟨[⟨bytes "not ", 1, 4⟩, ⟨bytes "json", 2, 2⟩], 0⟩)
        = .ok ((List.map Chunk.contents
          [⟨bytes "not ", 1, 4⟩, ⟨bytes "json", 2, 2⟩]).flatten) :=
  ⟨by decide, by decide, by decide, rfl,
    writeCallback_accumulates (bytes "not ") (bytes "json") 1 4 (by decide) (by decide) 0
      [⟨bytes "not ", 1, 4⟩, ⟨bytes "json", 2, 2⟩] (by decide)⟩

end SmhiDemo
